import Mathlib

/-!
Shallow embedding of the AutoTrading perpetual-futures backtester
(`portfolio.py`, `broker.py`, `backtest.py`) over exact rationals,
together with proofs of the specified account/bracket properties.

Python floats are modelled as `ℚ`; NaN/None-valued fields (`atr`,
structural levels, bracket prices) are modelled as `Option ℚ`.
-/

namespace AutoTrading

/-- `PerpState` from `portfolio.py`: cash, signed position, average entry
price, cumulative realized P&L. -/
structure PerpState where
  cash : ℚ
  position : ℚ
  avg_price : ℚ
  realized_pnl : ℚ
  deriving Repr, DecidableEq

/-- Configuration fields stored by `PerpPortfolio.__init__`. -/
structure PerpConfig where
  leverage : ℚ
  taker_fee_rate : ℚ
  maker_fee_rate : ℚ
  maint_margin_rate : ℚ
  deriving Repr, DecidableEq

/-- `PerpPortfolio.__init__`: stores the configuration and a fresh state
with the given cash; the source performs no validation of any argument. -/
def PerpPortfolio.init (initial_cash leverage taker_fee_rate maker_fee_rate
    maint_margin_rate : ℚ) : PerpConfig × PerpState :=
  (⟨leverage, taker_fee_rate, maker_fee_rate, maint_margin_rate⟩,
   ⟨initial_cash, 0, 0, 0⟩)

/-- `PerpPortfolio.unrealized_pnl`. -/
def unrealized_pnl (st : PerpState) (mark_price : ℚ) : ℚ :=
  if st.position = 0 then 0 else (mark_price - st.avg_price) * st.position

/-- `PerpPortfolio.equity`: cash plus unrealized P&L. -/
def equity (st : PerpState) (mark_price : ℚ) : ℚ :=
  st.cash + unrealized_pnl st mark_price

/-- `PerpPortfolio.margin_used`. -/
def margin_used (cfg : PerpConfig) (st : PerpState) (mark_price : ℚ) : ℚ :=
  |st.position| * mark_price / cfg.leverage

/-- `PerpPortfolio.free_margin`. -/
def free_margin (cfg : PerpConfig) (st : PerpState) (mark_price : ℚ) : ℚ :=
  equity st mark_price - margin_used cfg st mark_price

/-- `PerpPortfolio.is_liquidation_risk`. -/
def is_liquidation_risk (cfg : PerpConfig) (st : PerpState) (mark_price : ℚ) : Bool :=
  if st.position = 0 then false
  else decide (equity st mark_price ≤ |st.position| * mark_price * cfg.maint_margin_rate)

/-- `PerpPortfolio.commission`: |notional| times the maker or taker rate. -/
def commission (cfg : PerpConfig) (notional : ℚ) (is_maker : Bool) : ℚ :=
  |notional| * (if is_maker then cfg.maker_fee_rate else cfg.taker_fee_rate)

/-- `PerpPortfolio.max_qty_by_margin`. -/
def max_qty_by_margin (cfg : PerpConfig) (st : PerpState) (price : ℚ) : ℚ :=
  let eq := equity st price
  if eq ≤ 0 then 0 else eq * cfg.leverage / price

/-- `PerpPortfolio.target_position`: clamp the target into the margin bound
(when that bound is positive) and return the order delta. -/
def target_position (cfg : PerpConfig) (st : PerpState) (target_qty price : ℚ) : ℚ :=
  let max_abs := max_qty_by_margin cfg st price
  let t :=
    if 0 < max_abs then
      if target_qty > max_abs then max_abs
      else if target_qty < -max_abs then -max_abs
      else target_qty
    else target_qty
  t - st.position

/-- `PerpPortfolio.apply_fill`: record a fill (open / add / reduce / close /
reversal), deducting the commission from cash and crediting realized P&L. -/
def apply_fill (cfg : PerpConfig) (st : PerpState) (fill_price qty : ℚ)
    (is_maker : Bool) : PerpState :=
  if qty = 0 then st
  else
    let fee := commission cfg (fill_price * qty) is_maker
    let cash1 := st.cash - fee
    let old_pos := st.position
    let old_avg := st.avg_price
    let new_pos := old_pos + qty
    if old_pos = 0 then
      { st with cash := cash1, position := new_pos, avg_price := fill_price }
    else if (0 < old_pos ∧ 0 < qty) ∨ (old_pos < 0 ∧ qty < 0) then
      let total_cost := old_avg * |old_pos| + fill_price * |qty|
      { st with cash := cash1, position := new_pos,
                avg_price := total_cost / |new_pos| }
    else
      let close_qty := min |qty| |old_pos|
      let realized :=
        if 0 < old_pos then (fill_price - old_avg) * close_qty
        else (old_avg - fill_price) * close_qty
      let cash2 := cash1 + realized
      let rp := st.realized_pnl + realized
      if new_pos = 0 then
        { cash := cash2, position := new_pos, avg_price := 0, realized_pnl := rp }
      else if (0 < old_pos ∧ new_pos < 0) ∨ (old_pos < 0 ∧ 0 < new_pos) then
        { cash := cash2, position := new_pos, avg_price := fill_price,
          realized_pnl := rp }
      else
        { cash := cash2, position := new_pos, avg_price := old_avg,
          realized_pnl := rp }

/-- `SimBroker.fill_price` from `broker.py`: basis-point slippage against the
order (buys fill higher, sells lower). -/
def fill_price (slippage_bps mid_price qty : ℚ) : ℚ :=
  let slip := mid_price * slippage_bps / 10000
  if 0 < qty then mid_price + slip else mid_price - slip

/-- Configuration fields stored by `Backtester.__init__`; `trail_start_atr`
is hard-coded to 1.5 there. -/
structure BTConfig where
  pc : PerpConfig
  slippage_bps : ℚ
  max_pos : ℚ
  stop_atr : ℚ
  take_atr : ℚ
  use_trailing : Bool
  check_liq : Bool
  trail_start_atr : ℚ
  deriving Repr, DecidableEq

/-- Mutable run state of `Backtester`: the portfolio plus the bracket lines
and recorded entry price (`None` modelled as `Option`). -/
structure BTState where
  port : PerpState
  cur_stop : Option ℚ
  cur_take : Option ℚ
  entry_price : Option ℚ
  deriving Repr, DecidableEq

/-- Exit reasons recorded by `Backtester.run`. -/
inductive ExitReason where
  | LIQ | STOP | TAKE
  deriving Repr, DecidableEq

/-- One input bar of `df_signals` as read by `Backtester.run`; NaN `atr` and
non-finite structural levels are `none`. -/
structure Bar where
  close : ℚ
  high : ℚ
  low : ℚ
  volatility : ℚ
  atr : Option ℚ
  trade_signal : ℚ
  signal : ℤ
  resistance_7d : Option ℚ
  support_7d : Option ℚ
  deriving Repr, DecidableEq

/-- `Backtester._set_brackets`: distance-based stop/take from the entry
price and ATR, with a structural stop candidate buffered by `0.5*atr`;
an undefined or non-positive ATR clears both lines unconditionally. -/
def set_brackets (cfg : BTConfig) (s : BTState) (entry_price : ℚ)
    (atr : Option ℚ) (side : ℤ) (res7 sup7 : Option ℚ) : BTState :=
  match atr with
  | none => { s with cur_stop := none, cur_take := none }
  | some a =>
    if a ≤ 0 then { s with cur_stop := none, cur_take := none }
    else
      let struct_buf := (1 / 2 : ℚ) * a
      if side = 1 then
        let stop_dist := entry_price - cfg.stop_atr * a
        let take := entry_price + cfg.take_atr * a
        let stop :=
          match sup7 with
          | some sp => min stop_dist (sp - struct_buf)
          | none => stop_dist
        { s with cur_stop := some stop, cur_take := some take }
      else
        let stop_dist := entry_price + cfg.stop_atr * a
        let take := entry_price - cfg.take_atr * a
        let stop :=
          match res7 with
          | some r => max stop_dist (r + struct_buf)
          | none => stop_dist
        { s with cur_stop := some stop, cur_take := some take }

/-- `Backtester._update_trailing_stop`: once the profit threshold is met,
trail the stop towards `close`, bounded by the structural level, moving it
only in the favorable direction. -/
def update_trailing_stop (cfg : BTConfig) (s : BTState) (close : ℚ)
    (atr : Option ℚ) (side : ℤ) (res7 sup7 : Option ℚ) : BTState :=
  if cfg.use_trailing = false then s
  else
    match s.cur_stop, s.entry_price, atr with
    | some stop, some entry, some a =>
      if a ≤ 0 then s
      else
        let profit := if side = 1 then close - entry else entry - close
        if profit < cfg.trail_start_atr * a then s
        else
          let struct_buf := (1 / 2 : ℚ) * a
          if side = 1 then
            let ns0 := close - cfg.stop_atr * a
            let ns :=
              match sup7 with
              | some sp => min ns0 (sp - struct_buf)
              | none => ns0
            { s with cur_stop := some (max stop ns) }
          else
            let ns0 := close + cfg.stop_atr * a
            let ns :=
              match res7 with
              | some r => max ns0 (r + struct_buf)
              | none => ns0
            { s with cur_stop := some (min stop ns) }
    | _, _, _ => s

/-- An exit event: reason and executed exit price (both absent when no exit
happened on the bar). -/
def ExitEvt := Option (ExitReason × ℚ)

/-- `Backtester._close_position`: close the whole position at the given
reference price through the fill model and clear the bracket state. -/
def close_position (cfg : BTConfig) (s : BTState) (exit_mid_price : ℚ)
    (reason : ExitReason) : BTState × ExitEvt :=
  if s.port.position = 0 then (s, none)
  else
    let qty_to_close := -s.port.position
    let fill := fill_price cfg.slippage_bps exit_mid_price qty_to_close
    let port := apply_fill cfg.pc s.port fill qty_to_close false
    ({ port := port, cur_stop := none, cur_take := none, entry_price := none },
     some (reason, fill))

/-- Step (liquidation check) of `Backtester.run`: force-close at the bar
close when the simplified liquidation test fires. -/
def stepLiq (cfg : BTConfig) (s : BTState) (bar : Bar) : BTState × ExitEvt :=
  if cfg.check_liq && is_liquidation_risk cfg.pc s.port bar.close then
    close_position cfg s bar.close ExitReason.LIQ
  else (s, none)

/-- Step A of `Backtester.run`: per-bar stop/take check with STOP priority;
exits fill at the bracket line that was hit. -/
def stepBracket (cfg : BTConfig) (s : BTState) (bar : Bar) : BTState × ExitEvt :=
  match s.cur_stop, s.cur_take with
  | some stop, some take =>
    if s.port.position = 0 then (s, none)
    else if 0 < s.port.position then
      if bar.low ≤ stop then close_position cfg s stop ExitReason.STOP
      else if take ≤ bar.high then close_position cfg s take ExitReason.TAKE
      else (s, none)
    else
      if stop ≤ bar.high then close_position cfg s stop ExitReason.STOP
      else if bar.low ≤ take then close_position cfg s take ExitReason.TAKE
      else (s, none)
  | _, _ => (s, none)

/-- Step B of `Backtester.run`: signal-driven sizing through
`target_position`, fill at the bar close, then bracket (re)initialization
at the fill price (or clearing when the fill flattens the position). -/
def stepSignal (cfg : BTConfig) (s : BTState) (bar : Bar) : BTState :=
  if bar.trade_signal = 0 then s
  else
    let target : ℚ :=
      if bar.signal = 1 then cfg.max_pos
      else if bar.signal = -1 then -cfg.max_pos
      else 0
    let order_qty := target_position cfg.pc s.port target bar.close
    if order_qty = 0 then s
    else
      let fill := fill_price cfg.slippage_bps bar.close order_qty
      let port := apply_fill cfg.pc s.port fill order_qty false
      if port.position = 0 then
        { port := port, cur_stop := none, cur_take := none, entry_price := none }
      else
        let side : ℤ := if 0 < port.position then 1 else -1
        set_brackets cfg { s with port := port, entry_price := some fill }
          fill bar.atr side bar.resistance_7d bar.support_7d

/-- Step C of `Backtester.run`: compute the `trailing_active` flag from the
profit threshold and, when it is set, run the trailing-stop update. -/
def stepTrailing (cfg : BTConfig) (s : BTState) (bar : Bar) : BTState × Bool :=
  match s.entry_price, bar.atr with
  | some entry, some a =>
    if s.port.position ≠ 0 ∧ 0 < a then
      let side : ℤ := if 0 < s.port.position then 1 else -1
      let profit := if side = 1 then bar.close - entry else entry - bar.close
      let trailing_active := decide (cfg.trail_start_atr * a ≤ profit)
      if trailing_active then
        (update_trailing_stop cfg s bar.close (some a) side
          bar.resistance_7d bar.support_7d, trailing_active)
      else (s, trailing_active)
    else (s, false)
  | _, _ => (s, false)

/-- Per-bar result fields of the snapshot that are not a direct copy of the
final state: the exit event and the `trailing_active` flag. -/
structure BarResult where
  exit_evt : ExitEvt
  trailing_active : Bool

/-- One iteration of the loop in `Backtester.run`: liquidation check, then
bracket exits, then signal-driven sizing, then the trailing update. -/
def runBar (cfg : BTConfig) (s : BTState) (bar : Bar) : BTState × BarResult :=
  let (s1, e1) := stepLiq cfg s bar
  let (s2, e2) := stepBracket cfg s1 bar
  let evt := match e2 with | some e => some e | none => e1
  let s3 := stepSignal cfg s2 bar
  let (s4, ta) := stepTrailing cfg s3 bar
  (s4, ⟨evt, ta⟩)

/-- A sequence of calls to `Backtester._update_trailing_stop` with a fixed
side, each with its own close/ATR/structural-level inputs. -/
def update_trailing_run (cfg : BTConfig) (side : ℤ) (s : BTState)
    (inputs : List (ℚ × Option ℚ × Option ℚ × Option ℚ)) : BTState :=
  inputs.foldl
    (fun t i => update_trailing_stop cfg t i.1 i.2.1 side i.2.2.1 i.2.2.2) s

theorem unrealized_pnl_eq (st : PerpState) (mark : ℚ) :
    unrealized_pnl st mark = (mark - st.avg_price) * st.position := by
  unfold unrealized_pnl
  split_ifs with h
  · simp [h]
  · rfl

theorem equity_eq (st : PerpState) (mark : ℚ) :
    equity st mark = st.cash + (mark - st.avg_price) * st.position := by
  unfold equity; rw [unrealized_pnl_eq]

theorem apply_fill_flat (cfg : PerpConfig) (st : PerpState) (p q : ℚ)
    (mk : Bool) (h1 : st.position = 0) (hq : q ≠ 0) :
    apply_fill cfg st p q mk =
      ⟨st.cash - commission cfg (p * q) mk, q, p, st.realized_pnl⟩ := by
  simp only [apply_fill, if_neg hq, h1]
  norm_num

theorem apply_fill_add (cfg : PerpConfig) (st : PerpState) (p q : ℚ)
    (mk : Bool)
    (h : (0 < st.position ∧ 0 < q) ∨ (st.position < 0 ∧ q < 0)) :
    apply_fill cfg st p q mk =
      ⟨st.cash - commission cfg (p * q) mk, st.position + q,
       (st.avg_price * |st.position| + p * |q|) / |st.position + q|,
       st.realized_pnl⟩ := by
  have hq : q ≠ 0 := by
    rcases h with ⟨_, h⟩ | ⟨_, h⟩
    exacts [ne_of_gt h, ne_of_lt h]
  have h1 : st.position ≠ 0 := by
    rcases h with ⟨h, _⟩ | ⟨h, _⟩
    exacts [ne_of_gt h, ne_of_lt h]
  simp only [apply_fill, if_neg hq, if_neg h1, if_pos h]

theorem apply_fill_close (cfg : PerpConfig) (st : PerpState) (p q : ℚ)
    (mk : Bool) (h1 : st.position ≠ 0) (hqe : q = -st.position) :
    apply_fill cfg st p q mk =
      ⟨st.cash - commission cfg (p * q) mk + (p - st.avg_price) * st.position,
       0, 0,
       st.realized_pnl + (p - st.avg_price) * st.position⟩ := by
  have hq : q ≠ 0 := by rw [hqe, neg_ne_zero]; exact h1
  have h2 : ¬ ((0 < st.position ∧ 0 < q) ∨ (st.position < 0 ∧ q < 0)) := by
    rintro (⟨ha, hb⟩ | ⟨ha, hb⟩) <;> rw [hqe] at hb <;> linarith
  have hnew : st.position + q = 0 := by rw [hqe]; ring
  have hminq : |q| ⊓ |st.position| = |st.position| := by
    rw [hqe, abs_neg, min_self]
  simp only [apply_fill, if_neg hq, if_neg h1, if_neg h2, if_pos hnew, hminq]
  rcases lt_or_gt_of_ne h1 with hop | hop
  · rw [if_neg (by linarith : ¬ 0 < st.position), PerpState.mk.injEq,
      abs_of_neg hop]
    refine ⟨by ring, hnew, rfl, by ring⟩
  · rw [if_pos hop, PerpState.mk.injEq, abs_of_pos hop]
    refine ⟨by ring, hnew, rfl, by ring⟩

theorem apply_fill_reversal (cfg : PerpConfig) (st : PerpState) (p q : ℚ)
    (mk : Bool)
    (h : (0 < st.position ∧ st.position + q < 0)
       ∨ (st.position < 0 ∧ 0 < st.position + q)) :
    apply_fill cfg st p q mk =
      ⟨st.cash - commission cfg (p * q) mk + (p - st.avg_price) * st.position,
       st.position + q, p,
       st.realized_pnl + (p - st.avg_price) * st.position⟩ := by
  have h1 : st.position ≠ 0 := by
    rcases h with ⟨h, _⟩ | ⟨h, _⟩
    exacts [ne_of_gt h, ne_of_lt h]
  have hq : q ≠ 0 := by
    rintro rfl
    rcases h with ⟨ha, hb⟩ | ⟨ha, hb⟩ <;> rw [add_zero] at hb <;> linarith
  have h2 : ¬ ((0 < st.position ∧ 0 < q) ∨ (st.position < 0 ∧ q < 0)) := by
    rintro (⟨ha, hb⟩ | ⟨ha, hb⟩) <;> rcases h with ⟨hc, hd⟩ | ⟨hc, hd⟩ <;>
      linarith
  have hnew : st.position + q ≠ 0 := by
    rcases h with ⟨_, h⟩ | ⟨_, h⟩
    exacts [ne_of_lt h, ne_of_gt h]
  have hmin : |q| ⊓ |st.position| = |st.position| :=
    min_eq_right (by
      rcases h with ⟨ha, hb⟩ | ⟨ha, hb⟩
      · rw [abs_of_pos ha, abs_of_neg (by linarith : q < 0)]; linarith
      · rw [abs_of_neg ha, abs_of_pos (by linarith : 0 < q)]; linarith)
  simp only [apply_fill, if_neg hq, if_neg h1, if_neg h2, if_neg hnew,
    if_pos h, hmin]
  rcases h with ⟨hop, _⟩ | ⟨hop, _⟩
  · rw [if_pos hop, PerpState.mk.injEq, abs_of_pos hop]
    exact ⟨by ring, rfl, rfl, by ring⟩
  · rw [if_neg (by linarith : ¬ 0 < st.position), PerpState.mk.injEq,
      abs_of_neg hop]
    exact ⟨by ring, rfl, rfl, by ring⟩

theorem apply_fill_reduce (cfg : PerpConfig) (st : PerpState) (p q : ℚ)
    (mk : Bool)
    (h : (0 < st.position ∧ q < 0 ∧ 0 < st.position + q)
       ∨ (st.position < 0 ∧ 0 < q ∧ st.position + q < 0)) :
    apply_fill cfg st p q mk =
      ⟨st.cash - commission cfg (p * q) mk + (st.avg_price - p) * q,
       st.position + q, st.avg_price,
       st.realized_pnl + (st.avg_price - p) * q⟩ := by
  have h1 : st.position ≠ 0 := by
    rcases h with ⟨h, _⟩ | ⟨h, _⟩
    exacts [ne_of_gt h, ne_of_lt h]
  have hq : q ≠ 0 := by
    rcases h with ⟨_, h, _⟩ | ⟨_, h, _⟩
    exacts [ne_of_lt h, ne_of_gt h]
  have h2 : ¬ ((0 < st.position ∧ 0 < q) ∨ (st.position < 0 ∧ q < 0)) := by
    rintro (⟨ha, hb⟩ | ⟨ha, hb⟩) <;> rcases h with ⟨hc, hd, he⟩ | ⟨hc, hd, he⟩ <;>
      linarith
  have hnew : st.position + q ≠ 0 := by
    rcases h with ⟨_, _, h⟩ | ⟨_, _, h⟩
    exacts [ne_of_gt h, ne_of_lt h]
  have h4 : ¬ ((0 < st.position ∧ st.position + q < 0)
       ∨ (st.position < 0 ∧ 0 < st.position + q)) := by
    rintro (⟨ha, hb⟩ | ⟨ha, hb⟩) <;> rcases h with ⟨hc, hd, he⟩ | ⟨hc, hd, he⟩ <;>
      linarith
  have hmin : |q| ⊓ |st.position| = |q| :=
    min_eq_left (by
      rcases h with ⟨ha, hb, hc⟩ | ⟨ha, hb, hc⟩
      · rw [abs_of_pos ha, abs_of_neg hb]; linarith
      · rw [abs_of_neg ha, abs_of_pos hb]; linarith)
  simp only [apply_fill, if_neg hq, if_neg h1, if_neg h2, if_neg hnew,
    if_neg h4, hmin]
  rcases h with ⟨hop, hb, _⟩ | ⟨hop, hb, _⟩
  · rw [if_pos hop, PerpState.mk.injEq, abs_of_neg hb]
    exact ⟨by ring, rfl, rfl, by ring⟩
  · rw [if_neg (by linarith : ¬ 0 < st.position), PerpState.mk.injEq,
      abs_of_pos hb]
    exact ⟨by ring, rfl, rfl, by ring⟩

/-- C1: for every account state and every nonzero fill, the equity marked at
the fill price moves by exactly minus the commission: realized P&L credited
to cash is offset by the change in unrealized P&L at the fill price, in all
four cases (open, add, reduce/close, reversal). -/
theorem apply_fill_equity_conservation (cfg : PerpConfig) (st : PerpState)
    (p q : ℚ) (mk : Bool) (hq : q ≠ 0) :
    equity (apply_fill cfg st p q mk) p
      = equity st p - commission cfg (p * q) mk := by
  rcases eq_or_ne st.position 0 with h1 | h1
  · rw [apply_fill_flat cfg st p q mk h1 hq]
    simp only [equity_eq, h1]
    ring
  · by_cases h2 : (0 < st.position ∧ 0 < q) ∨ (st.position < 0 ∧ q < 0)
    · rw [apply_fill_add cfg st p q mk h2]
      simp only [equity_eq]
      rcases h2 with ⟨hop, hq0⟩ | ⟨hop, hq0⟩
      · have hnp : 0 < st.position + q := add_pos hop hq0
        rw [abs_of_pos hop, abs_of_pos hq0, abs_of_pos hnp, sub_mul,
          div_mul_cancel₀ _ (ne_of_gt hnp)]
        ring
      · have hnp : st.position + q < 0 := add_neg hop hq0
        have hnum : st.avg_price * -st.position + p * -q
            = -(st.avg_price * st.position + p * q) := by ring
        rw [abs_of_neg hop, abs_of_neg hq0, abs_of_neg hnp, hnum,
          neg_div_neg_eq, sub_mul, div_mul_cancel₀ _ (ne_of_lt hnp)]
        ring
    · by_cases h3 : st.position + q = 0
      · rw [apply_fill_close cfg st p q mk h1 (by linarith)]
        simp only [equity_eq]
        ring
      · by_cases h4 : (0 < st.position ∧ st.position + q < 0)
            ∨ (st.position < 0 ∧ 0 < st.position + q)
        · rw [apply_fill_reversal cfg st p q mk h4]
          simp only [equity_eq]
          ring
        · have hred : (0 < st.position ∧ q < 0 ∧ 0 < st.position + q)
              ∨ (st.position < 0 ∧ 0 < q ∧ st.position + q < 0) := by
            rcases lt_or_gt_of_ne h1 with hop | hop
            · refine Or.inr ⟨hop, ?_, ?_⟩
              · rcases lt_trichotomy q 0 with h | h | h
                · exact absurd (Or.inr ⟨hop, h⟩) h2
                · exact absurd h hq
                · exact h
              · rcases lt_trichotomy (st.position + q) 0 with h | h | h
                · exact h
                · exact absurd h h3
                · exact absurd (Or.inr ⟨hop, h⟩) h4
            · refine Or.inl ⟨hop, ?_, ?_⟩
              · rcases lt_trichotomy q 0 with h | h | h
                · exact h
                · exact absurd h hq
                · exact absurd (Or.inl ⟨hop, h⟩) h2
              · rcases lt_trichotomy (st.position + q) 0 with h | h | h
                · exact absurd (Or.inl ⟨hop, h⟩) h4
                · exact absurd h h3
                · exact h
          rw [apply_fill_reduce cfg st p q mk hred]
          simp only [equity_eq]
          ring

/-- Witness for C1 at a concrete fill. -/
theorem apply_fill_equity_conservation_witness :
    equity (apply_fill ⟨10, 1/2500, 1/5000, 1/200⟩ ⟨1000, 2, 90, 0⟩ 100 (-3) false) 100
      = equity (⟨1000, 2, 90, 0⟩ : PerpState) 100
        - commission ⟨10, 1/2500, 1/5000, 1/200⟩ (100 * (-3)) false :=
  apply_fill_equity_conservation ⟨10, 1/2500, 1/5000, 1/200⟩ ⟨1000, 2, 90, 0⟩
    100 (-3) false (by norm_num)

/-- C2: from a flat account, buying 10 at 100 and then selling 15 at 110
realizes exactly (110-100)*10 = 100, leaves position -5 with average price
110 (the reversal fill price), fees touching only cash; and in general any
fill whose resulting position has the opposite sign of the old position
sets the average price to the fill price. -/
theorem apply_fill_reversal_scenario (cfg : PerpConfig) (c r : ℚ)
    (mk1 mk2 : Bool) (st : PerpState) (p q : ℚ) (mk : Bool)
    (hflip : (0 < st.position ∧ st.position + q < 0)
       ∨ (st.position < 0 ∧ 0 < st.position + q)) :
    ((apply_fill cfg (apply_fill cfg ⟨c, 0, 0, r⟩ 100 10 mk1)
        110 (-15) mk2).realized_pnl = r + 100
     ∧ (apply_fill cfg (apply_fill cfg ⟨c, 0, 0, r⟩ 100 10 mk1)
        110 (-15) mk2).position = -5
     ∧ (apply_fill cfg (apply_fill cfg ⟨c, 0, 0, r⟩ 100 10 mk1)
        110 (-15) mk2).avg_price = 110
     ∧ (apply_fill cfg (apply_fill cfg ⟨c, 0, 0, r⟩ 100 10 mk1)
        110 (-15) mk2).cash
        = c - commission cfg (100 * 10) mk1
            - commission cfg (110 * (-15)) mk2 + 100)
    ∧ (apply_fill cfg st p q mk).avg_price = p := by
  constructor
  · rw [apply_fill_flat cfg ⟨c, 0, 0, r⟩ 100 10 mk1 rfl (by norm_num),
      apply_fill_reversal cfg _ 110 (-15) mk2
        (Or.inl ⟨by norm_num, by norm_num⟩)]
    refine ⟨by norm_num, by norm_num, rfl, by norm_num⟩
  · rw [apply_fill_reversal cfg st p q mk hflip]

/-- Witness for C2 at a concrete reversal fill. -/
theorem apply_fill_reversal_scenario_witness :
    ((apply_fill ⟨10, 1/2500, 1/5000, 1/200⟩
        (apply_fill ⟨10, 1/2500, 1/5000, 1/200⟩ ⟨1000, 0, 0, 0⟩ 100 10 false)
        110 (-15) false).realized_pnl = 0 + 100
     ∧ (apply_fill ⟨10, 1/2500, 1/5000, 1/200⟩
        (apply_fill ⟨10, 1/2500, 1/5000, 1/200⟩ ⟨1000, 0, 0, 0⟩ 100 10 false)
        110 (-15) false).position = -5
     ∧ (apply_fill ⟨10, 1/2500, 1/5000, 1/200⟩
        (apply_fill ⟨10, 1/2500, 1/5000, 1/200⟩ ⟨1000, 0, 0, 0⟩ 100 10 false)
        110 (-15) false).avg_price = 110
     ∧ (apply_fill ⟨10, 1/2500, 1/5000, 1/200⟩
        (apply_fill ⟨10, 1/2500, 1/5000, 1/200⟩ ⟨1000, 0, 0, 0⟩ 100 10 false)
        110 (-15) false).cash
        = 1000 - commission ⟨10, 1/2500, 1/5000, 1/200⟩ (100 * 10) false
            - commission ⟨10, 1/2500, 1/5000, 1/200⟩ (110 * (-15)) false + 100)
    ∧ (apply_fill ⟨10, 1/2500, 1/5000, 1/200⟩
        ⟨0, 10, 100, 0⟩ 110 (-15) false).avg_price = 110 :=
  apply_fill_reversal_scenario ⟨10, 1/2500, 1/5000, 1/200⟩ 1000 0 false false
    ⟨0, 10, 100, 0⟩ 110 (-15) false (Or.inl ⟨by norm_num, by norm_num⟩)

/-- C3: in the per-bar bracket check, when both the stop and the take level
are hit on the same bar, the position is closed with reason STOP (not TAKE)
and the exit fill references the stop price through the fill model. -/
theorem bracket_tie_break_stop_priority (cfg : BTConfig) (s : BTState)
    (bar : Bar) (stop take : ℚ)
    (hs : s.cur_stop = some stop) (ht : s.cur_take = some take)
    (hp : s.port.position ≠ 0)
    (hhitL : 0 < s.port.position → bar.low ≤ stop ∧ take ≤ bar.high)
    (hhitS : s.port.position < 0 → stop ≤ bar.high ∧ bar.low ≤ take) :
    (stepBracket cfg s bar).2
      = some (ExitReason.STOP,
          fill_price cfg.slippage_bps stop (-s.port.position))
    ∧ (stepBracket cfg s bar).1.port.position = 0 := by
  have hclose :
      (close_position cfg s stop ExitReason.STOP).2
        = some (ExitReason.STOP,
            fill_price cfg.slippage_bps stop (-s.port.position))
      ∧ (close_position cfg s stop ExitReason.STOP).1.port.position = 0 := by
    rw [close_position, if_neg hp]
    refine ⟨rfl, ?_⟩
    have := apply_fill_close cfg.pc s.port
      (fill_price cfg.slippage_bps stop (-s.port.position))
      (-s.port.position) false hp rfl
    simp only [this]
  rcases lt_or_gt_of_ne hp with hop | hop
  · have hhit := hhitS hop
    simp only [stepBracket, hs, ht, if_neg hp,
      if_neg (by linarith : ¬ 0 < s.port.position), if_pos hhit.1]
    exact hclose
  · have hhit := hhitL hop
    simp only [stepBracket, hs, ht, if_neg hp, if_pos hop, if_pos hhit.1]
    exact hclose

/-- Witness for C3: a long position whose bar pierces both levels. -/
theorem bracket_tie_break_stop_priority_witness :
    (stepBracket ⟨⟨10, 1/2500, 1/5000, 1/200⟩, 0, 1, 2, 3, true, true, 3/2⟩
        ⟨⟨1000, 1, 100, 0⟩, some 96, some 106, some 100⟩
        ⟨95, 107, 95, 0, none, 0, 0, none, none⟩).2
      = some (ExitReason.STOP,
          fill_price 0 96 (-(⟨1000, 1, 100, 0⟩ : PerpState).position))
    ∧ (stepBracket ⟨⟨10, 1/2500, 1/5000, 1/200⟩, 0, 1, 2, 3, true, true, 3/2⟩
        ⟨⟨1000, 1, 100, 0⟩, some 96, some 106, some 100⟩
        ⟨95, 107, 95, 0, none, 0, 0, none, none⟩).1.port.position = 0 :=
  bracket_tie_break_stop_priority
    ⟨⟨10, 1/2500, 1/5000, 1/200⟩, 0, 1, 2, 3, true, true, 3/2⟩
    ⟨⟨1000, 1, 100, 0⟩, some 96, some 106, some 100⟩
    ⟨95, 107, 95, 0, none, 0, 0, none, none⟩ 96 106 rfl rfl (by norm_num)
    (fun _ => ⟨by norm_num, by norm_num⟩)
    (fun h => absurd h (by norm_num))

theorem update_trailing_stop_step (cfg : BTConfig) (s : BTState)
    (close : ℚ) (atr : Option ℚ) (side : ℤ) (res7 sup7 : Option ℚ)
    (stop : ℚ) (hs : s.cur_stop = some stop) :
    ∃ stop',
      (update_trailing_stop cfg s close atr side res7 sup7).cur_stop
        = some stop'
      ∧ (side = 1 → stop ≤ stop') ∧ (side ≠ 1 → stop' ≤ stop) := by
  by_cases hu : cfg.use_trailing = false
  · exact ⟨stop, by simp only [update_trailing_stop, if_pos hu, hs],
      fun _ => le_refl _, fun _ => le_refl _⟩
  · rcases hE : s.entry_price with _ | entry
    · exact ⟨stop, by simp only [update_trailing_stop, if_neg hu, hs, hE],
        fun _ => le_refl _, fun _ => le_refl _⟩
    · rcases atr with _ | a
      · exact ⟨stop, by simp only [update_trailing_stop, if_neg hu, hs, hE],
          fun _ => le_refl _, fun _ => le_refl _⟩
      · simp only [update_trailing_stop, if_neg hu, hs, hE]
        by_cases ha : a ≤ 0
        · exact ⟨stop, by simp only [if_pos ha, hs],
            fun _ => le_refl _, fun _ => le_refl _⟩
        · simp only [if_neg ha]
          by_cases hprofit :
              (if side = 1 then close - entry else entry - close)
                < cfg.trail_start_atr * a
          · exact ⟨stop, by simp only [if_pos hprofit, hs],
              fun _ => le_refl _, fun _ => le_refl _⟩
          · simp only [if_neg hprofit]
            by_cases hside : side = 1
            · refine ⟨stop ⊔ (match sup7 with
                  | some sp => (close - cfg.stop_atr * a) ⊓ (sp - 1 / 2 * a)
                  | none => close - cfg.stop_atr * a),
                by simp only [if_pos hside], fun _ => le_max_left _ _,
                fun h => absurd hside h⟩
            · refine ⟨stop ⊓ (match res7 with
                  | some r => (close + cfg.stop_atr * a) ⊔ (r + 1 / 2 * a)
                  | none => close + cfg.stop_atr * a),
                by simp only [if_neg hside], fun h => absurd h hside,
                fun _ => min_le_left _ _⟩

/-- C4: for a long position (side 1) an arbitrary sequence of trailing-stop
updates never decreases the stop; for a short (side -1) it never increases
it, regardless of the close/ATR/structural inputs of each call. -/
theorem update_trailing_run_monotone (cfg : BTConfig) (side : ℤ)
    (s : BTState) (inputs : List (ℚ × Option ℚ × Option ℚ × Option ℚ))
    (stop : ℚ) (hs : s.cur_stop = some stop) :
    ∃ stop',
      (update_trailing_run cfg side s inputs).cur_stop = some stop'
      ∧ (side = 1 → stop ≤ stop') ∧ (side = -1 → stop' ≤ stop) := by
  induction inputs generalizing s stop with
  | nil => exact ⟨stop, hs, fun _ => le_refl _, fun _ => le_refl _⟩
  | cons i rest ih =>
    obtain ⟨s1, h1, hle1, hge1⟩ :=
      update_trailing_stop_step cfg s i.1 i.2.1 side i.2.2.1 i.2.2.2 stop hs
    obtain ⟨s2, h2, hle2, hge2⟩ := ih _ _ h1
    refine ⟨s2, h2, fun h => le_trans (hle1 h) (hle2 h),
      fun h => le_trans (hge2 h) (hge1 ?_)⟩
    rw [h]
    decide

/-- Witness for C4: one long-side trailing update from stop 96. -/
theorem update_trailing_run_monotone_witness :
    ∃ stop',
      (update_trailing_run
          ⟨⟨10, 1/2500, 1/5000, 1/200⟩, 0, 1, 2, 3, true, true, 3/2⟩ 1
          ⟨⟨1000, 1, 100, 0⟩, some 96, some 106, some 100⟩
          [(110, some 2, none, none)]).cur_stop = some stop'
      ∧ ((1 : ℤ) = 1 → (96 : ℚ) ≤ stop') ∧ ((1 : ℤ) = -1 → stop' ≤ 96) :=
  update_trailing_run_monotone
    ⟨⟨10, 1/2500, 1/5000, 1/200⟩, 0, 1, 2, 3, true, true, 3/2⟩ 1
    ⟨⟨1000, 1, 100, 0⟩, some 96, some 106, some 100⟩
    [(110, some 2, none, none)] 96 rfl

/-- C5 counterexample: the state (cash 0, position 1, avg_price -100)
satisfies `avg_price = 0 ↔ position = 0`, yet an add fill of 1 at price 100
(nonzero qty, positive price) produces avg_price 0 with position 2, so the
iff-invariant alone is not preserved by `apply_fill`. -/
theorem apply_fill_avg_price_iff_cex :
    ((⟨0, 1, -100, 0⟩ : PerpState).avg_price = 0
        ↔ (⟨0, 1, -100, 0⟩ : PerpState).position = 0)
    ∧ (1 : ℚ) ≠ 0 ∧ (0 : ℚ) < 100
    ∧ (apply_fill ⟨10, 1/2500, 1/5000, 1/200⟩ ⟨0, 1, -100, 0⟩
        100 1 false).avg_price = 0
    ∧ (apply_fill ⟨10, 1/2500, 1/5000, 1/200⟩ ⟨0, 1, -100, 0⟩
        100 1 false).position = 2
    ∧ ¬ ((apply_fill ⟨10, 1/2500, 1/5000, 1/200⟩ ⟨0, 1, -100, 0⟩
          100 1 false).avg_price = 0
        ↔ (apply_fill ⟨10, 1/2500, 1/5000, 1/200⟩ ⟨0, 1, -100, 0⟩
          100 1 false).position = 0) := by
  have hadd := apply_fill_add ⟨10, 1/2500, 1/5000, 1/200⟩ ⟨0, 1, -100, 0⟩
    100 1 false (Or.inl ⟨by norm_num, by norm_num⟩)
  have h1 : |((⟨0, 1, -100, 0⟩ : PerpState)).position| = 1 := abs_one
  have h2 : |((⟨0, 1, -100, 0⟩ : PerpState)).position + 1| = 2 := by
    rw [show ((⟨0, 1, -100, 0⟩ : PerpState)).position + 1 = 2 from by norm_num,
      abs_of_pos] ; norm_num
  rw [h1, h2] at hadd
  rw [hadd]
  norm_num

/-- C5 (amended): for starting states whose average price is moreover zero
when flat and strictly positive when in a position, every fill with nonzero
qty and positive price preserves that strengthened invariant — and hence
the stated `avg_price = 0 ↔ position = 0`. -/
theorem apply_fill_avg_price_invariant (cfg : PerpConfig) (st : PerpState)
    (p q : ℚ) (mk : Bool)
    (_hflat : st.position = 0 → st.avg_price = 0)
    (hopen : st.position ≠ 0 → 0 < st.avg_price)
    (hq : q ≠ 0) (hp : 0 < p) :
    ((apply_fill cfg st p q mk).position = 0
      → (apply_fill cfg st p q mk).avg_price = 0)
    ∧ ((apply_fill cfg st p q mk).position ≠ 0
      → 0 < (apply_fill cfg st p q mk).avg_price)
    ∧ ((apply_fill cfg st p q mk).avg_price = 0
      ↔ (apply_fill cfg st p q mk).position = 0) := by
  have key : ((apply_fill cfg st p q mk).position = 0
      → (apply_fill cfg st p q mk).avg_price = 0)
      ∧ ((apply_fill cfg st p q mk).position ≠ 0
      → 0 < (apply_fill cfg st p q mk).avg_price) := by
    rcases eq_or_ne st.position 0 with h1 | h1
    · rw [apply_fill_flat cfg st p q mk h1 hq]
      exact ⟨fun h => absurd h hq, fun _ => hp⟩
    · by_cases h2 : (0 < st.position ∧ 0 < q) ∨ (st.position < 0 ∧ q < 0)
      · rw [apply_fill_add cfg st p q mk h2]
        have havg := hopen h1
        have hqa : 0 < |q| := abs_pos.mpr (by
          rcases h2 with ⟨_, h⟩ | ⟨_, h⟩
          exacts [ne_of_gt h, ne_of_lt h])
        have hpa : 0 < |st.position| := abs_pos.mpr h1
        have hnp : st.position + q ≠ 0 := by
          rcases h2 with ⟨ha, hb⟩ | ⟨ha, hb⟩
          · exact ne_of_gt (add_pos ha hb)
          · exact ne_of_lt (add_neg ha hb)
        refine ⟨fun h => absurd h hnp, fun _ => ?_⟩
        exact div_pos
          (add_pos (mul_pos havg hpa) (mul_pos hp hqa))
          (abs_pos.mpr hnp)
      · by_cases h3 : st.position + q = 0
        · rw [apply_fill_close cfg st p q mk h1 (by linarith)]
          exact ⟨fun _ => rfl, fun h => absurd rfl h⟩
        · by_cases h4 : (0 < st.position ∧ st.position + q < 0)
              ∨ (st.position < 0 ∧ 0 < st.position + q)
          · rw [apply_fill_reversal cfg st p q mk h4]
            exact ⟨fun h => absurd h h3, fun _ => hp⟩
          · have hred : (0 < st.position ∧ q < 0 ∧ 0 < st.position + q)
                ∨ (st.position < 0 ∧ 0 < q ∧ st.position + q < 0) := by
              rcases lt_or_gt_of_ne h1 with hop | hop
              · refine Or.inr ⟨hop, ?_, ?_⟩
                · rcases lt_trichotomy q 0 with h | h | h
                  · exact absurd (Or.inr ⟨hop, h⟩) h2
                  · exact absurd h hq
                  · exact h
                · rcases lt_trichotomy (st.position + q) 0 with h | h | h
                  · exact h
                  · exact absurd h h3
                  · exact absurd (Or.inr ⟨hop, h⟩) h4
              · refine Or.inl ⟨hop, ?_, ?_⟩
                · rcases lt_trichotomy q 0 with h | h | h
                  · exact h
                  · exact absurd h hq
                  · exact absurd (Or.inl ⟨hop, h⟩) h2
                · rcases lt_trichotomy (st.position + q) 0 with h | h | h
                  · exact absurd (Or.inl ⟨hop, h⟩) h4
                  · exact absurd h h3
                  · exact h
            rw [apply_fill_reduce cfg st p q mk hred]
            exact ⟨fun h => absurd h h3, fun _ => hopen h1⟩
  refine ⟨key.1, key.2, ?_, key.1⟩
  intro ha
  by_contra hne
  exact absurd ha (ne_of_gt (key.2 hne))

/-- Witness for the amended C5 at a concrete opening fill. -/
theorem apply_fill_avg_price_invariant_witness :
    ((apply_fill ⟨10, 1/2500, 1/5000, 1/200⟩ ⟨1000, 0, 0, 0⟩
        100 1 false).position = 0
      → (apply_fill ⟨10, 1/2500, 1/5000, 1/200⟩ ⟨1000, 0, 0, 0⟩
        100 1 false).avg_price = 0)
    ∧ ((apply_fill ⟨10, 1/2500, 1/5000, 1/200⟩ ⟨1000, 0, 0, 0⟩
        100 1 false).position ≠ 0
      → 0 < (apply_fill ⟨10, 1/2500, 1/5000, 1/200⟩ ⟨1000, 0, 0, 0⟩
        100 1 false).avg_price)
    ∧ ((apply_fill ⟨10, 1/2500, 1/5000, 1/200⟩ ⟨1000, 0, 0, 0⟩
        100 1 false).avg_price = 0
      ↔ (apply_fill ⟨10, 1/2500, 1/5000, 1/200⟩ ⟨1000, 0, 0, 0⟩
        100 1 false).position = 0) :=
  apply_fill_avg_price_invariant ⟨10, 1/2500, 1/5000, 1/200⟩ ⟨1000, 0, 0, 0⟩
    100 1 false (fun _ => rfl) (fun h => absurd rfl h)
    (by norm_num) (by norm_num)

/-- C6: whenever the margin bound is strictly positive, executing the delta
returned by `target_position` leaves a position whose notional margin at
the clamping price does not exceed the account equity at that price. -/
theorem target_position_margin_clamp (cfg : PerpConfig) (st : PerpState)
    (t price : ℚ) (h : 0 < max_qty_by_margin cfg st price) :
    |st.position + target_position cfg st t price| * price / cfg.leverage
      ≤ equity st price := by
  by_cases hE0 : equity st price ≤ 0
  · rw [max_qty_by_margin, if_pos hE0] at h
    exact absurd h (by norm_num)
  · push_neg at hE0
    have hM : max_qty_by_margin cfg st price
        = equity st price * cfg.leverage / price := by
      rw [max_qty_by_margin, if_neg (not_le.mpr hE0)]
    rw [hM] at h
    set E := equity st price with hEdef
    set M := E * cfg.leverage / price with hMdef
    have htp : st.position + target_position cfg st t price
        = if t > M then M else if t < -M then -M else t := by
      rw [target_position, hM, if_pos h]
      ring
    have habs : |if t > M then M else if t < -M then -M else t| ≤ M := by
      split_ifs with ht1 ht2
      · exact le_of_eq (abs_of_pos h)
      · rw [abs_neg]
        exact le_of_eq (abs_of_pos h)
      · exact abs_le.mpr ⟨by linarith, by linarith⟩
    rw [htp]
    set x := |if t > M then M else if t < -M then -M else t| with hxdef
    rcases lt_trichotomy price 0 with hp | hp | hp
    · have hEl : E * cfg.leverage < 0 := by
        have := mul_lt_mul_of_neg_right h hp
        rwa [div_mul_cancel₀ _ (ne_of_lt hp), zero_mul] at this
      have hl : cfg.leverage < 0 := by
        by_contra hc
        push_neg at hc
        exact absurd hEl (not_lt.mpr (mul_nonneg (le_of_lt hE0) hc))
      have h1 : E * cfg.leverage ≤ x * price := by
        have := mul_le_mul_of_nonpos_right habs (le_of_lt hp)
        rwa [div_mul_cancel₀ _ (ne_of_lt hp)] at this
      rw [div_le_iff_of_neg hl]
      exact h1
    · rw [hp, div_zero] at hMdef
      rw [hMdef] at h
      exact absurd h (by norm_num)
    · have hEl : 0 < E * cfg.leverage := by
        have := mul_lt_mul_of_pos_right h hp
        rwa [div_mul_cancel₀ _ (ne_of_gt hp), zero_mul] at this
      have hl : 0 < cfg.leverage := by
        by_contra hc
        push_neg at hc
        exact absurd hEl (not_lt.mpr (mul_nonpos_of_nonneg_of_nonpos
          (le_of_lt hE0) hc))
      have h1 : x * price ≤ E * cfg.leverage := by
        have := mul_le_mul_of_nonneg_right habs (le_of_lt hp)
        rwa [div_mul_cancel₀ _ (ne_of_gt hp)] at this
      rw [div_le_iff₀ hl]
      exact h1

/-- Witness for C6: a fresh 1000-cash account targeting far beyond its
margin capacity at price 100 with leverage 10. -/
theorem target_position_margin_clamp_witness :
    |(⟨1000, 0, 0, 0⟩ : PerpState).position
        + target_position ⟨10, 1/2500, 1/5000, 1/200⟩ ⟨1000, 0, 0, 0⟩
            1000 100| * 100 / (⟨10, 1/2500, 1/5000, 1/200⟩ : PerpConfig).leverage
      ≤ equity ⟨1000, 0, 0, 0⟩ 100 :=
  target_position_margin_clamp ⟨10, 1/2500, 1/5000, 1/200⟩ ⟨1000, 0, 0, 0⟩
    1000 100 (by norm_num [max_qty_by_margin, equity, unrealized_pnl])

theorem update_trailing_stop_port (cfg : BTConfig) (s : BTState) (close : ℚ)
    (atr : Option ℚ) (side : ℤ) (res7 sup7 : Option ℚ) :
    (update_trailing_stop cfg s close atr side res7 sup7).port = s.port := by
  by_cases hu : cfg.use_trailing = false
  · rw [update_trailing_stop.eq_def, if_pos hu]
  · rcases hstop : s.cur_stop with _ | stop
    · simp only [update_trailing_stop, if_neg hu, hstop]
    · rcases hE : s.entry_price with _ | entry
      · simp only [update_trailing_stop, if_neg hu, hstop, hE]
      · rcases atr with _ | a
        · simp only [update_trailing_stop, if_neg hu, hstop, hE]
        · simp only [update_trailing_stop, if_neg hu, hstop, hE]
          split_ifs <;> rfl

theorem stepTrailing_port (cfg : BTConfig) (s : BTState) (bar : Bar) :
    (stepTrailing cfg s bar).1.port = s.port := by
  rcases hE : s.entry_price with _ | entry
  · simp only [stepTrailing, hE]
  · rcases hA : bar.atr with _ | a
    · simp only [stepTrailing, hE, hA]
    · simp only [stepTrailing, hE, hA]
      split_ifs
      all_goals first | rfl | apply update_trailing_stop_port

/-- C7 counterexample: on a bar with `trade_signal = 0`, no brackets set and
hence no stop/take hit, the liquidation check alone closes the position, so
position and cash do change. -/
theorem no_signal_bar_frame_cex :
    (⟨100, 100, 100, 0, none, 0, 0, none, none⟩ : Bar).trade_signal = 0
    ∧ (⟨⟨2/5, 1, 100, 0⟩, none, none, none⟩ : BTState).cur_stop = none
    ∧ (⟨⟨2/5, 1, 100, 0⟩, none, none, none⟩ : BTState).cur_take = none
    ∧ (runBar ⟨⟨10, 1/2500, 1/5000, 1/200⟩, 0, 1, 2, 3, true, true, 3/2⟩
        ⟨⟨2/5, 1, 100, 0⟩, none, none, none⟩
        ⟨100, 100, 100, 0, none, 0, 0, none, none⟩).1.port.position = 0
    ∧ (⟨⟨2/5, 1, 100, 0⟩, none, none, none⟩ : BTState).port.position = 1
    ∧ (runBar ⟨⟨10, 1/2500, 1/5000, 1/200⟩, 0, 1, 2, 3, true, true, 3/2⟩
        ⟨⟨2/5, 1, 100, 0⟩, none, none, none⟩
        ⟨100, 100, 100, 0, none, 0, 0, none, none⟩).1.port.cash = 9/25
    ∧ (⟨⟨2/5, 1, 100, 0⟩, none, none, none⟩ : BTState).port.cash = 2/5 := by
  refine ⟨rfl, rfl, rfl, ?_, rfl, ?_, rfl⟩ <;>
    norm_num [runBar, stepLiq, stepBracket, stepSignal, stepTrailing,
      close_position, is_liquidation_risk, equity_eq, fill_price,
      apply_fill, commission]

/-- C7 (amended): on a bar with `trade_signal = 0`, no stop/take hit, and on
which the liquidation check does not fire (disabled or no liquidation risk
at the close), processing the bar leaves position, average price and cash
unchanged. -/
theorem no_signal_bar_frame (cfg : BTConfig) (s : BTState) (bar : Bar)
    (hsig : bar.trade_signal = 0)
    (hliq : cfg.check_liq = false
      ∨ is_liquidation_risk cfg.pc s.port bar.close = false)
    (hnohit : ∀ stop take, s.cur_stop = some stop → s.cur_take = some take →
      (0 < s.port.position → ¬ bar.low ≤ stop ∧ ¬ take ≤ bar.high)
      ∧ (s.port.position < 0 → ¬ stop ≤ bar.high ∧ ¬ bar.low ≤ take)) :
    (runBar cfg s bar).1.port.position = s.port.position
    ∧ (runBar cfg s bar).1.port.avg_price = s.port.avg_price
    ∧ (runBar cfg s bar).1.port.cash = s.port.cash := by
  have hA : stepLiq cfg s bar = (s, none) := by
    rw [stepLiq, if_neg]
    rcases hliq with h | h <;> rw [h] <;> simp
  have hB : stepBracket cfg s bar = (s, none) := by
    rw [stepBracket]
    rcases hstop : s.cur_stop with _ | stop
    · rfl
    · rcases htake : s.cur_take with _ | take
      · rfl
      · simp only []
        rcases lt_trichotomy s.port.position 0 with hp | hp | hp
        · have hh := (hnohit stop take hstop htake).2 hp
          rw [if_neg (ne_of_lt hp), if_neg (by linarith : ¬ 0 < s.port.position),
            if_neg hh.1, if_neg hh.2]
        · rw [if_pos hp]
        · have hh := (hnohit stop take hstop htake).1 hp
          rw [if_neg (ne_of_gt hp), if_pos hp, if_neg hh.1, if_neg hh.2]
  have hC : stepSignal cfg s bar = s := by
    rw [stepSignal, if_pos hsig]
  have hrun : (runBar cfg s bar).1 = (stepTrailing cfg s bar).1 := by
    simp only [runBar, hA, hB, hC]
  rw [hrun, stepTrailing_port]
  exact ⟨rfl, rfl, rfl⟩

/-- Witness for the amended C7: a quiet bar on an open long position. -/
theorem no_signal_bar_frame_witness :
    (runBar ⟨⟨10, 1/2500, 1/5000, 1/200⟩, 0, 1, 2, 3, true, false, 3/2⟩
        ⟨⟨1000, 1, 100, 0⟩, some 96, some 106, some 100⟩
        ⟨100, 101, 99, 0, some 2, 0, 0, none, none⟩).1.port.position
      = (⟨⟨1000, 1, 100, 0⟩, some 96, some 106, some 100⟩ : BTState).port.position
    ∧ (runBar ⟨⟨10, 1/2500, 1/5000, 1/200⟩, 0, 1, 2, 3, true, false, 3/2⟩
        ⟨⟨1000, 1, 100, 0⟩, some 96, some 106, some 100⟩
        ⟨100, 101, 99, 0, some 2, 0, 0, none, none⟩).1.port.avg_price
      = (⟨⟨1000, 1, 100, 0⟩, some 96, some 106, some 100⟩ : BTState).port.avg_price
    ∧ (runBar ⟨⟨10, 1/2500, 1/5000, 1/200⟩, 0, 1, 2, 3, true, false, 3/2⟩
        ⟨⟨1000, 1, 100, 0⟩, some 96, some 106, some 100⟩
        ⟨100, 101, 99, 0, some 2, 0, 0, none, none⟩).1.port.cash
      = (⟨⟨1000, 1, 100, 0⟩, some 96, some 106, some 100⟩ : BTState).port.cash :=
  no_signal_bar_frame
    ⟨⟨10, 1/2500, 1/5000, 1/200⟩, 0, 1, 2, 3, true, false, 3/2⟩
    ⟨⟨1000, 1, 100, 0⟩, some 96, some 106, some 100⟩
    ⟨100, 101, 99, 0, some 2, 0, 0, none, none⟩ rfl (Or.inl rfl)
    (fun stop take hstop htake => by
      cases hstop
      cases htake
      exact ⟨fun _ => ⟨by norm_num, by norm_num⟩,
        fun h => absurd h (by norm_num)⟩)

/-- C8: evaluation of the constructor at the failing input — contrary to
the claimed `InvalidConfiguration` rejection, `PerpPortfolio.__init__`
performs no validation: zero leverage and negative fee rates are accepted
and stored as-is, and the account state is created normally. -/
theorem init_accepts_invalid_config :
    (PerpPortfolio.init 1000 0 (-1/2500) (-1/5000) (1/200)).1
      = ⟨0, -1/2500, -1/5000, 1/200⟩
    ∧ (PerpPortfolio.init 1000 0 (-1/2500) (-1/5000) (1/200)).2
      = ⟨1000, 0, 0, 0⟩ :=
  ⟨rfl, rfl⟩

theorem set_brackets_none_of_invalid (cfg : BTConfig) (s : BTState)
    (entry : ℚ) (atr : Option ℚ) (side : ℤ) (res7 sup7 : Option ℚ)
    (h : atr = none ∨ ∃ a, atr = some a ∧ a ≤ 0) :
    (set_brackets cfg s entry atr side res7 sup7).cur_stop = none
    ∧ (set_brackets cfg s entry atr side res7 sup7).cur_take = none := by
  rcases h with h | ⟨a, h, ha⟩
  · rw [h]
    exact ⟨rfl, rfl⟩
  · rw [h]
    simp only [set_brackets, if_pos ha]
    exact ⟨trivial, trivial⟩

theorem set_brackets_port (cfg : BTConfig) (s : BTState) (entry : ℚ)
    (atr : Option ℚ) (side : ℤ) (res7 sup7 : Option ℚ) :
    (set_brackets cfg s entry atr side res7 sup7).port = s.port := by
  rcases atr with _ | a
  · rfl
  · simp only [set_brackets]
    split_ifs <;> rfl

/-- C9: an undefined or non-positive ATR makes `_set_brackets` clear both
bracket lines unconditionally, erasing any previously active bracket; hence
a signal-step fill that leaves a nonzero position on such a bar produces an
open position with no bracket at all. -/
theorem set_brackets_invalid_atr_erases (cfg : BTConfig) (s : BTState)
    (entry : ℚ) (atr : Option ℚ) (side : ℤ) (res7 sup7 : Option ℚ)
    (bar : Bar)
    (hatr : atr = none ∨ ∃ a, atr = some a ∧ a ≤ 0)
    (hbar : bar.atr = none ∨ ∃ a, bar.atr = some a ∧ a ≤ 0)
    (hsig : bar.trade_signal ≠ 0)
    (hoq : target_position cfg.pc s.port
        (if bar.signal = 1 then cfg.max_pos
         else if bar.signal = -1 then -cfg.max_pos else 0) bar.close ≠ 0)
    (hpos : (apply_fill cfg.pc s.port
        (fill_price cfg.slippage_bps bar.close
          (target_position cfg.pc s.port
            (if bar.signal = 1 then cfg.max_pos
             else if bar.signal = -1 then -cfg.max_pos else 0) bar.close))
        (target_position cfg.pc s.port
          (if bar.signal = 1 then cfg.max_pos
           else if bar.signal = -1 then -cfg.max_pos else 0) bar.close)
        false).position ≠ 0) :
    ((set_brackets cfg s entry atr side res7 sup7).cur_stop = none
      ∧ (set_brackets cfg s entry atr side res7 sup7).cur_take = none)
    ∧ ((stepSignal cfg s bar).cur_stop = none
      ∧ (stepSignal cfg s bar).cur_take = none
      ∧ (stepSignal cfg s bar).port.position ≠ 0) := by
  refine ⟨set_brackets_none_of_invalid cfg s entry atr side res7 sup7 hatr, ?_⟩
  have hstep : stepSignal cfg s bar
      = set_brackets cfg
          { s with
            port := apply_fill cfg.pc s.port
              (fill_price cfg.slippage_bps bar.close
                (target_position cfg.pc s.port
                  (if bar.signal = 1 then cfg.max_pos
                   else if bar.signal = -1 then -cfg.max_pos else 0) bar.close))
              (target_position cfg.pc s.port
                (if bar.signal = 1 then cfg.max_pos
                 else if bar.signal = -1 then -cfg.max_pos else 0) bar.close)
              false,
            entry_price := some (fill_price cfg.slippage_bps bar.close
              (target_position cfg.pc s.port
                (if bar.signal = 1 then cfg.max_pos
                 else if bar.signal = -1 then -cfg.max_pos else 0) bar.close)) }
          (fill_price cfg.slippage_bps bar.close
            (target_position cfg.pc s.port
              (if bar.signal = 1 then cfg.max_pos
               else if bar.signal = -1 then -cfg.max_pos else 0) bar.close))
          bar.atr
          (if 0 < (apply_fill cfg.pc s.port
              (fill_price cfg.slippage_bps bar.close
                (target_position cfg.pc s.port
                  (if bar.signal = 1 then cfg.max_pos
                   else if bar.signal = -1 then -cfg.max_pos else 0) bar.close))
              (target_position cfg.pc s.port
                (if bar.signal = 1 then cfg.max_pos
                 else if bar.signal = -1 then -cfg.max_pos else 0) bar.close)
              false).position then 1 else -1)
          bar.resistance_7d bar.support_7d := by
    rw [stepSignal.eq_def, if_neg hsig]
    simp only [if_neg hoq, if_neg hpos]
  rw [hstep]
  obtain ⟨h1, h2⟩ := set_brackets_none_of_invalid cfg _ _ bar.atr _
    bar.resistance_7d bar.support_7d hbar
  exact ⟨h1, h2, by rw [set_brackets_port]; exact hpos⟩

/-- Witness for C9: a short-entry fill on a bar with undefined ATR wipes the
previously active bracket while leaving the position open. -/
theorem set_brackets_invalid_atr_erases_witness :
    ((set_brackets ⟨⟨10, 1/2500, 1/5000, 1/200⟩, 0, 1, 2, 3, true, true, 3/2⟩
        ⟨⟨1000, 1, 100, 0⟩, some 96, some 106, some 100⟩ 100 none 1
        none none).cur_stop = none
      ∧ (set_brackets ⟨⟨10, 1/2500, 1/5000, 1/200⟩, 0, 1, 2, 3, true, true, 3/2⟩
        ⟨⟨1000, 1, 100, 0⟩, some 96, some 106, some 100⟩ 100 none 1
        none none).cur_take = none)
    ∧ ((stepSignal ⟨⟨10, 1/2500, 1/5000, 1/200⟩, 0, 1, 2, 3, true, true, 3/2⟩
        ⟨⟨1000, 1, 100, 0⟩, some 96, some 106, some 100⟩
        ⟨100, 101, 99, 0, none, 1, -1, none, none⟩).cur_stop = none
      ∧ (stepSignal ⟨⟨10, 1/2500, 1/5000, 1/200⟩, 0, 1, 2, 3, true, true, 3/2⟩
        ⟨⟨1000, 1, 100, 0⟩, some 96, some 106, some 100⟩
        ⟨100, 101, 99, 0, none, 1, -1, none, none⟩).cur_take = none
      ∧ (stepSignal ⟨⟨10, 1/2500, 1/5000, 1/200⟩, 0, 1, 2, 3, true, true, 3/2⟩
        ⟨⟨1000, 1, 100, 0⟩, some 96, some 106, some 100⟩
        ⟨100, 101, 99, 0, none, 1, -1, none, none⟩).port.position ≠ 0) :=
  set_brackets_invalid_atr_erases
    ⟨⟨10, 1/2500, 1/5000, 1/200⟩, 0, 1, 2, 3, true, true, 3/2⟩
    ⟨⟨1000, 1, 100, 0⟩, some 96, some 106, some 100⟩ 100 none 1 none none
    ⟨100, 101, 99, 0, none, 1, -1, none, none⟩
    (Or.inl rfl) (Or.inl rfl) (by norm_num)
    (by norm_num [target_position, max_qty_by_margin, equity_eq])
    (by
      rw [apply_fill_reversal _ _ _ _ _ (Or.inl ⟨by norm_num,
        by norm_num [target_position, max_qty_by_margin, equity_eq]⟩)]
      norm_num [target_position, max_qty_by_margin, equity_eq])

theorem update_trailing_stop_disabled (cfg : BTConfig) (s : BTState)
    (close : ℚ) (atr : Option ℚ) (side : ℤ) (res7 sup7 : Option ℚ)
    (h : cfg.use_trailing = false) :
    update_trailing_stop cfg s close atr side res7 sup7 = s := by
  rw [update_trailing_stop.eq_def, if_pos h]

/-- C10: the snapshot's `trailing_active` flag is insensitive to the
`use_trailing` configuration switch, which only gates the stop update, so a
run with trailing disabled can report `trailing_active = true` while the
state (in particular the stop) is left untouched. -/
theorem trailing_active_ignores_use_trailing (cfg : BTConfig) (s : BTState)
    (bar : Bar) (b : Bool) :
    ((stepTrailing { cfg with use_trailing := b } s bar).2
        = (stepTrailing cfg s bar).2)
    ∧ (cfg.use_trailing = false → (stepTrailing cfg s bar).1 = s)
    ∧ ((stepTrailing ⟨⟨10, 1/2500, 1/5000, 1/200⟩, 0, 1, 2, 3, false, false, 3/2⟩
          ⟨⟨1000, 1, 100, 0⟩, some 96, some 106, some 100⟩
          ⟨110, 111, 109, 0, some 2, 0, 0, none, none⟩).2 = true
      ∧ (stepTrailing ⟨⟨10, 1/2500, 1/5000, 1/200⟩, 0, 1, 2, 3, false, false, 3/2⟩
          ⟨⟨1000, 1, 100, 0⟩, some 96, some 106, some 100⟩
          ⟨110, 111, 109, 0, some 2, 0, 0, none, none⟩).1
        = ⟨⟨1000, 1, 100, 0⟩, some 96, some 106, some 100⟩) := by
  refine ⟨?_, ?_, ?_, ?_⟩
  · rcases hE : s.entry_price with _ | entry
    · simp only [stepTrailing, hE]
    · rcases hA : bar.atr with _ | a
      · simp only [stepTrailing, hE, hA]
      · simp only [stepTrailing, hE, hA]
        split_ifs <;> rfl
  · intro h
    rcases hE : s.entry_price with _ | entry
    · simp only [stepTrailing, hE]
    · rcases hA : bar.atr with _ | a
      · simp only [stepTrailing, hE, hA]
      · simp only [stepTrailing, hE, hA]
        split_ifs <;>
          first
          | rfl
          | exact update_trailing_stop_disabled cfg s bar.close (some a) _
              bar.resistance_7d bar.support_7d h
  · simp only [stepTrailing]
    norm_num
  · simp only [stepTrailing]
    norm_num [update_trailing_stop]

/-- Witness for C10: with trailing disabled, the trailing step leaves the
state untouched, discharging the disabled hypothesis concretely. -/
theorem trailing_active_ignores_use_trailing_witness :
    (stepTrailing ⟨⟨10, 1/2500, 1/5000, 1/200⟩, 0, 1, 2, 3, false, false, 3/2⟩
        ⟨⟨1000, 1, 100, 0⟩, some 96, some 106, some 100⟩
        ⟨110, 111, 109, 0, some 2, 0, 0, none, none⟩).1
      = ⟨⟨1000, 1, 100, 0⟩, some 96, some 106, some 100⟩ :=
  (trailing_active_ignores_use_trailing
    ⟨⟨10, 1/2500, 1/5000, 1/200⟩, 0, 1, 2, 3, false, false, 3/2⟩
    ⟨⟨1000, 1, 100, 0⟩, some 96, some 106, some 100⟩
    ⟨110, 111, 109, 0, some 2, 0, 0, none, none⟩ true).2.1 rfl

end AutoTrading
